import Mathlib

/-!
Shallow embedding of the INTERLOCK server core (src/config.go, src/api.go):
the cipher/HSM registry, the session/XSRF gate and API dispatcher, and the
nonce-injecting response wrapper, together with proofs about the
specification claims.

Go maps are modelled as association lists (iteration order fixed to list
order, where Go leaves it unspecified), Go machine strings as Lean
`String`/`List Char`, fallible Go functions as explicit result types, and
`log.Fatal` as a `fatal` outcome that aborts initialization.
-/

namespace Interlock

/-- Association lists standing for Go string-keyed maps. Insertion
overwrites an existing binding in place, as Go map assignment does. -/
def alInsert {α : Type} : List (String × α) → String → α → List (String × α)
  | [], k, v => [(k, v)]
  | (k', v') :: rest, k, v =>
    if k' = k then (k, v) :: rest else (k', v') :: alInsert rest k v

/-- Go map read m[k]: the value bound to key k, if any. -/
def alLookup {α : Type} : List (String × α) → String → Option α
  | [], _ => none
  | (k', v') :: rest, k => if k' = k then some v' else alLookup rest k

/-- Go strings.Split restricted to a one-character separator, the only
separator shape the embedded code uses (":" and ","). -/
def splitOnChar (sep : Char) : List Char → List (List Char)
  | [] => [[]]
  | c :: rest =>
    let r := splitOnChar sep rest
    if c = sep then [] :: r
    else
      match r with
      | [] => [[c]]
      | seg :: segs => (c :: seg) :: segs

/-- Go strings.Cut at a one-character separator: the part before the first
occurrence, the part after it, and whether it was found. -/
def cutOnChar (sep : Char) : List Char → List Char × List Char × Bool
  | [] => ([], [], false)
  | c :: rest =>
    if c = sep then ([], rest, true)
    else
      let r := cutOnChar sep rest
      (c :: r.1, r.2.1, r.2.2)

/-- Descriptive data of a cipher provider, as returned by GetInfo(). -/
structure cipherInfo where
  Name : String
  Extension : String
deriving DecidableEq

/-- Modelled from the spec: a cipher provider (the Go `cipherInterface`,
whose implementations live outside src/) carries descriptive info and
per-operation mutable state. Instance identity is modelled by a generation
counter, so the registered prototype and every freshly constructed
instance are distinct values. -/
structure cipherInterface where
  info : cipherInfo
  instanceGen : Nat
deriving DecidableEq

def cipherInterface.GetInfo (c : cipherInterface) : cipherInfo := c.info

/-- Modelled from the spec: the contract New() -> freshInstance returns a
newly constructed instance of the same provider (same descriptive info,
distinct identity). -/
def cipherInterface.New (c : cipherInterface) : cipherInterface :=
  { c with instanceGen := c.instanceGen + 1 }

/-- Modelled from the spec: an HSM provider (the Go `HSMInterface`,
implementations outside src/) offers New() -> freshInstance and
Cipher() -> CipherProvider. -/
structure HSMInterface where
  suppliedCipher : cipherInterface
  instanceGen : Nat
deriving DecidableEq

def HSMInterface.New (h : HSMInterface) : HSMInterface :=
  { h with instanceGen := h.instanceGen + 1 }

def HSMInterface.Cipher (h : HSMInterface) : cipherInterface :=
  h.suppliedCipher

/-- The configuration/registry state (config.go lines 26-48); only the
fields the verified core reads are modelled. Nil Go maps are modelled as
empty lists and nil interface fields as `none`. -/
structure config where
  HSM : String
  Ciphers : List String
  availableCiphers : List (String × cipherInterface)
  enabledCiphers : List (String × cipherInterface)
  availableHSMs : List (String × HSMInterface)
  authHSM : Option HSMInterface
  tlsHSM : Option HSMInterface
deriving DecidableEq

/-- config.SetAvailableCipher (config.go lines 52-58). -/
def config.SetAvailableCipher (c : config) (cipher : cipherInterface) : config :=
  { c with availableCiphers := alInsert c.availableCiphers cipher.GetInfo.Name cipher }

/-- config.SetAvailableHSM (config.go lines 60-66). -/
def config.SetAvailableHSM (c : config) (model : String) (h : HSMInterface) : config :=
  { c with availableHSMs := alInsert c.availableHSMs model h }

/-- Result of the Go (cipherInterface, error) pairs returned by the cipher
lookup methods. -/
inductive cipherResult where
  | ok (cipher : cipherInterface)
  | err (msg : String)
deriving DecidableEq

/-- config.GetAvailableCipher (config.go lines 68-80): look the name up in
the available map and return a fresh instance. -/
def config.GetAvailableCipher (c : config) (cipherName : String) : cipherResult :=
  match alLookup c.availableCiphers cipherName with
  | some cipher => .ok cipher.New
  | none => .err "invalid cipher"

/-- config.GetCipher (config.go lines 82-94): look the name up in the
enabled map and return a fresh instance. -/
def config.GetCipher (c : config) (cipherName : String) : cipherResult :=
  match alLookup c.enabledCiphers cipherName with
  | some cipher => .ok cipher.New
  | none => .err "invalid cipher"

/-- config.GetCipherByExt (config.go lines 96-107): scan the enabled map
for a provider whose extension matches and return that stored value itself
(the Go loop returns `val` directly; there is no New() call here, unlike
GetCipher). -/
def config.GetCipherByExt (c : config) (ext : String) : cipherResult :=
  match c.enabledCiphers.find? (fun kv => kv.2.GetInfo.Extension == ext) with
  | some kv => .ok kv.2
  | none => .err "invalid cipher"

/-- config.PrintAvailableCiphers (config.go lines 182-188) as the list of
emitted log lines, over a given available map. -/
def printAvailableCiphers (avail : List (String × cipherInterface)) : List String :=
  "supported ciphers:" :: avail.map (fun kv => "\t" ++ kv.1)

def config.PrintAvailableCiphers (c : config) : List String :=
  printAvailableCiphers c.availableCiphers

/-- The loop of config.EnableCiphers (config.go lines 119-126): the updated
enabled map, the emitted log lines, and the error, if any. On a miss the
map keeps the entries enabled so far, as the Go method mutates the
receiver before returning the error. -/
def enableCiphersLoop (avail : List (String × cipherInterface)) :
    List (String × cipherInterface) → List String →
    List (String × cipherInterface) × List String × Option String
  | enabled, [] => (enabled, [], none)
  | enabled, n :: rest =>
    match alLookup avail n with
    | some val => enableCiphersLoop avail (alInsert enabled n val) rest
    | none =>
      (enabled, printAvailableCiphers avail, some ("unsupported cipher name " ++ n))

/-- config.EnableCiphers (config.go lines 109-129), returning the updated
configuration, the emitted log lines, and the error, if any. -/
def config.EnableCiphers (c : config) : config × List String × Option String :=
  if c.Ciphers.length = 0 then
    (c, printAvailableCiphers c.availableCiphers, some "missing cipher specification")
  else
    let r := enableCiphersLoop c.availableCiphers c.enabledCiphers c.Ciphers
    ({ c with enabledCiphers := r.1 }, r.2.1, r.2.2)

/-- Outcome of config.EnableHSM; log.Fatal is modelled as `fatal`, which
aborts initialization. -/
inductive HSMOutcome where
  | ok (c : config)
  | fatal (msg : String)
deriving DecidableEq

/-- The option loop of config.EnableHSM (config.go lines 151-164), over the
one fresh HSM instance created before the loop. -/
def enableHSMLoop (H : HSMInterface) : config → List String → HSMOutcome
  | c, [] => .ok c
  | c, opt :: rest =>
    if opt = "luks" then enableHSMLoop H { c with authHSM := some H } rest
    else if opt = "tls" then enableHSMLoop H { c with tlsHSM := some H } rest
    else if opt = "cipher" then
      let cipher := H.Cipher
      let c1 := c.SetAvailableCipher cipher
      enableHSMLoop H
        { c1 with enabledCiphers := alInsert c1.enabledCiphers cipher.GetInfo.Name cipher } rest
    else .fatal "invalid hsm option"

/-- config.EnableHSM (config.go lines 131-170). -/
def config.EnableHSM (c : config) : HSMOutcome :=
  if c.HSM = "off" then .ok c
  else
    match splitOnChar ':' c.HSM.data with
    | m :: optStr :: _ =>
      match alLookup c.availableHSMs m.asString with
      | some val => enableHSMLoop val.New c ((splitOnChar ',' optStr).map List.asString)
      | none => .fatal "invalid hsm model"
    | _ => .fatal "invalid hsm configuration directive"

/-- Payload of the structured envelopes the gate and dispatcher send; the
envelopes relevant here carry either null or a list of strings. -/
inductive jsonValue where
  | null
  | strList (l : List String)
deriving DecidableEq

/-- Structured response envelope (the Go jsonObject, restricted to the
status/response shape every envelope in the embedded code has). -/
structure jsonObject where
  status : String
  response : jsonValue
deriving DecidableEq

/-- notFound (api.go lines 217-224). -/
def notFound : jsonObject := ⟨"INVALID", .strList ["invalid method"]⟩

/-- The envelope sent on session/XSRF rejection (api.go lines 108, 130, 135). -/
def invalidSessionEnvelope : jsonObject := ⟨"INVALID_SESSION", .null⟩

/-- Character class [A-Za-z0-9] of URIPattern (api.go line 31). -/
def isProviderChar (c : Char) : Bool :=
  ('A' ≤ c && c ≤ 'Z') || ('a' ≤ c && c ≤ 'z') || ('0' ≤ c && c ≤ '9')

/-- Character class [a-z0-9_] of URIPattern (api.go line 31). -/
def isActionChar (c : Char) : Bool :=
  ('a' ≤ c && c ≤ 'z') || ('0' ≤ c && c ≤ '9') || c == '_'

/-- Match URIPattern at the start of the character list: the literal /api/,
a nonempty [A-Za-z0-9] run, a slash, and a nonempty [a-z0-9_] run, giving
the two capture groups. -/
def matchURIPatternAt (l : List Char) : Option (String × String) :=
  match l with
  | '/' :: 'a' :: 'p' :: 'i' :: '/' :: rest =>
    match rest.takeWhile isProviderChar, rest.dropWhile isProviderChar with
    | [], _ => none
    | g1, '/' :: rest2 =>
      match rest2.takeWhile isActionChar with
      | [] => none
      | g2 => some (g1.asString, g2.asString)
    | _, _ => none
  | _ => none

/-- Go regexp FindStringSubmatch for URIPattern (api.go line 31), as the
capture groups of the leftmost match of /api/([A-Za-z0-9]+)/([a-z0-9_]+).
Both character classes exclude the slash, so the greedy leftmost-first
match is the maximal class run at the leftmost matching start position,
which this scanner computes. -/
def findURIPattern : List Char → Option (String × String)
  | [] => none
  | c :: rest =>
    match matchURIPatternAt (c :: rest) with
    | some r => some r
    | none => findURIPattern rest

/-- The request URIs of the fixed command table of handleRequest
(api.go lines 143-195). -/
def fixedAPIPaths : List String :=
  ["/api/auth/logout", "/api/auth/poweroff", "/api/luks/change", "/api/luks/add",
   "/api/luks/remove", "/api/config/time", "/api/file/list", "/api/file/upload",
   "/api/file/download", "/api/file/delete", "/api/file/move", "/api/file/copy",
   "/api/file/mkdir", "/api/file/extract", "/api/file/compress", "/api/file/encrypt",
   "/api/file/decrypt", "/api/file/sign", "/api/file/verify", "/api/crypto/ciphers",
   "/api/crypto/keys", "/api/crypto/gen_key", "/api/crypto/upload_key",
   "/api/crypto/key_info", "/api/status/version", "/api/status/running"]

/-- Routing outcome of handleRequest: a fixed-table handler, the custom
handler of a cipher provider (carrying the fresh instance the request is
forwarded to), or an envelope sent directly. -/
inductive Routed where
  | fixed (path : String)
  | custom (provider : cipherInterface)
  | envelope (o : jsonObject)
deriving DecidableEq

/-- handleRequest (api.go lines 140-215): the fixed command table on the
exact request URI, then the dynamic /api/provider/action pattern resolved
through the available set via GetAvailableCipher. -/
def handleRequest (c : config) (requestURI : String) : Routed :=
  if requestURI ∈ fixedAPIPaths then .fixed requestURI
  else
    match findURIPattern requestURI.data with
    | some (name, _) =>
      match c.GetAvailableCipher name with
      | .ok cipher => .custom cipher
      | .err _ => .envelope notFound
    | none => .envelope notFound

/-- Modelled from the spec: url.Parse on an origin-form request URI as the
gate uses it — u.Path is the part before the first question mark
(percent-decoding and fragments are not modelled; the paths the gate
compares are plain ASCII). -/
def uriPath (requestURI : String) : String :=
  (requestURI.data.takeWhile (fun c => c != '?')).asString

/-- Modelled from the spec: u.RawQuery, the part after the first question
mark. -/
def uriRawQuery (requestURI : String) : String :=
  ((requestURI.data.dropWhile (fun c => c != '?')).drop 1).asString

/-- Modelled from the spec: url.ParseQuery — split the raw query on the
ampersand, drop empty fragments, and cut each pair at the first equals
sign (percent-decoding is not modelled). Pairs are kept in order. -/
def parseQuery (rawQuery : String) : List (String × String) :=
  (splitOnChar '&' rawQuery.data).filterMap (fun kv =>
    match kv with
    | [] => none
    | _ =>
      let r := cutOnChar '=' kv
      some (r.1.asString, r.2.1.asString))

/-- Go url.Values read p[key]: every value bound to the key, in order. -/
def queryValues (q : List (String × String)) (key : String) : List String :=
  (q.filter (fun kv => kv.1 == key)).map (fun kv => kv.2)

/-- Observable outcome of apiHandler for one request: which handler the
request is forwarded to, or the envelope / raw HTTP error the gate itself
sends. `panic` marks a Go runtime panic raised inside the handler. -/
inductive ApiOutcome where
  | login
  | refresh
  | envelope (o : jsonObject)
  | httpError (code : Nat)
  | downloadByID (id : String)
  | dispatched (r : Routed)
  | panic
deriving DecidableEq

/-- apiHandler (api.go lines 85-138). The session store is an external
collaborator; the two booleans of its Validate(r) result are inputs here.
The download branch indexes p["id"][0] without a bounds check
(api.go line 125), which panics when the query carries no id parameter. -/
def apiHandler (c : config) (requestURI : String)
    (validSessionID validXSRFToken : Bool) : ApiOutcome :=
  if requestURI = "/api/auth/login" then .login
  else if requestURI = "/api/auth/refresh" then
    if validSessionID then .refresh else .envelope invalidSessionEnvelope
  else if !(validSessionID && validXSRFToken) then
    let path := uriPath requestURI
    if path = "/api/file/upload" then .httpError 401
    else if path = "/api/file/download" then
      if validSessionID then
        match queryValues (parseQuery (uriRawQuery requestURI)) "id" with
        | [] => .panic
        | id :: _ => .downloadByID id
      else .envelope invalidSessionEnvelope
    else .envelope invalidSessionEnvelope
  else .dispatched (handleRequest c requestURI)

/-- nonceSize (api.go line 27). -/
def nonceSize : Nat := 32

/-- The placeholder token replaced in response bodies (api.go line 29);
its braces are written with character escapes. -/
def nonceToken : String := "\x7b\x7b nonce \x7d\x7d"

/-- Strip tok from the front of s, returning the remainder when tok is a
prefix of s. -/
def stripSeq : List Char → List Char → Option (List Char)
  | [], s => some s
  | _ :: _, [] => none
  | t :: ts, c :: cs => if t = c then stripSeq ts cs else none

/-- Fueled scanner behind replaceAll; one unit of fuel per character of the
input suffices. -/
def replaceAllF (tok repl : List Char) : Nat → List Char → List Char
  | _, [] => []
  | 0, s => s
  | fuel + 1, c :: rest =>
    match tok, stripSeq tok (c :: rest) with
    | _ :: _, some remainder => repl ++ replaceAllF tok repl fuel remainder
    | _, _ => c :: replaceAllF tok repl fuel rest

/-- Go strings.Replace(s, tok, repl, -1) for a nonempty tok (the one use in
src/ replaces the fixed nonce placeholder): every nonoverlapping
occurrence of tok, scanned left to right, is replaced by repl. -/
def replaceAll (tok repl s : List Char) : List Char :=
  replaceAllF tok repl s.length s

/-- ResponseNoncer (api.go lines 22-25); the state of the wrapped writer
that this model tracks is the per-response nonce. -/
structure ResponseNoncer where
  nonce : String
deriving DecidableEq

/-- NewResponseNoncer (api.go lines 50-52). -/
def NewResponseNoncer (nonce : String) : ResponseNoncer := ⟨nonce⟩

/-- ResponseNoncer.Write (api.go lines 58-63): the bytes handed to the
underlying writer, with every occurrence of the placeholder replaced by
the response's nonce. -/
def ResponseNoncer.Write (r : ResponseNoncer) (b : List Char) : List Char :=
  replaceAll nonceToken.data r.nonce.data b

/-- The fixed piece of the Content-Security-Policy value before the
embedded nonce (api.go line 39); apostrophes written as escapes. -/
def cspHead : String :=
  "default-src \x27none\x27; script-src \x27strict-dynamic\x27 \x27nonce-"

/-- The fixed piece of the Content-Security-Policy value after the embedded
nonce (api.go line 39). -/
def cspTail : String :=
  "\x27 \x27unsafe-eval\x27; style-src \x27self\x27 \x27unsafe-inline\x27; img-src \x27self\x27; connect-src \x27self\x27;"

def cspValue (nonce : String) : String := cspHead ++ nonce ++ cspTail

/-- State applyHeaders (api.go lines 33-48) prepares before the inner
handler runs: the response headers after the four Set calls, and the
noncer wrapping the writer. encodedRandomString lives outside src/; the
pair (nonce, error) it returned is the `gen` input. The error is tested,
an error value is built and dropped on the floor (api.go lines 36-38), and
processing continues with the returned nonce either way. -/
def applyHeaders (gen : String × Option String) (headers : List (String × String)) :
    List (String × String) × ResponseNoncer :=
  let nonce := gen.1
  let _discarded := gen.2.map (fun _ => "can't generate a new nonce")
  let h1 := alInsert headers "Content-Security-Policy" (cspValue nonce)
  let h2 := alInsert h1 "Cache-Control" "no-cache, no-store, max-age=0, must-revalidate"
  let h3 := alInsert h2 "Pragma" "no-cache"
  let h4 := alInsert h3 "Expires" "Fri, 07 Jan 1981 00:00:00 GMT"
  (h4, NewResponseNoncer nonce)

/-- The registry operations an initialization sequence may run (the three
named by the invariant claim). -/
inductive InitOp where
  | setAvailableCipher (cipher : cipherInterface)
  | enableCiphers
  | enableHSM
deriving DecidableEq

/-- Run one initialization operation; `none` is a fatal abort. EnableCiphers
hands its error to the caller with the state kept, so its state is kept
here as well. -/
def runOp (c : config) : InitOp → Option config
  | .setAvailableCipher ci => some (c.SetAvailableCipher ci)
  | .enableCiphers => some c.EnableCiphers.1
  | .enableHSM =>
    match c.EnableHSM with
    | .ok c' => some c'
    | .fatal _ => none

/-- Run an initialization sequence, stopping at the first fatal abort. -/
def runOps : config → List InitOp → Option config
  | c, [] => some c
  | c, op :: rest =>
    match runOp c op with
    | some c' => runOps c' rest
    | none => none

/-- Every cipher name that is a key of the enabled map is a key of the
available map. -/
def enabledSubAvailable (c : config) : Bool :=
  c.enabledCiphers.all (fun kv => (alLookup c.availableCiphers kv.1).isSome)

theorem alLookup_insert_self {α : Type} (m : List (String × α)) (k : String) (v : α) :
    alLookup (alInsert m k v) k = some v := by
  induction m with
  | nil => simp [alInsert, alLookup]
  | cons kv rest ih =>
    obtain ⟨k', v'⟩ := kv
    by_cases h : k' = k
    · simp [alInsert, alLookup, h]
    · simp [alInsert, alLookup, h, ih]

theorem alLookup_insert_ne {α : Type} (m : List (String × α)) (k k' : String) (v : α)
    (h : k' ≠ k) : alLookup (alInsert m k v) k' = alLookup m k' := by
  induction m with
  | nil => simp [alInsert, alLookup, Ne.symm h]
  | cons kv rest ih =>
    obtain ⟨k₁, v₁⟩ := kv
    by_cases h1 : k₁ = k
    · subst h1
      simp [alInsert, alLookup, Ne.symm h]
    · by_cases h2 : k₁ = k'
      · subst h2
        simp [alInsert, alLookup, h1]
      · simp [alInsert, alLookup, h1, h2, ih]

theorem alLookup_insert_isSome {α : Type} (m : List (String × α)) (k k' : String) (v : α)
    (h : (alLookup m k').isSome) : (alLookup (alInsert m k v) k').isSome := by
  by_cases hk : k' = k
  · subst hk
    simp [alLookup_insert_self]
  · rwa [alLookup_insert_ne m k k' v hk]

theorem all_alInsert {α : Type} (p : String × α → Bool) (m : List (String × α)) (k : String)
    (v : α) (hm : m.all p = true) (hv : p (k, v) = true) : (alInsert m k v).all p = true := by
  induction m with
  | nil => simp [alInsert, hv]
  | cons kv rest ih =>
    obtain ⟨k₁, v₁⟩ := kv
    simp only [List.all_cons, Bool.and_eq_true] at hm
    by_cases h1 : k₁ = k
    · simp [alInsert, h1, hv, hm.2]
    · simp [alInsert, alLookup, h1, hm.1, ih hm.2]

theorem all_imp_all {α : Type} (p q : α → Bool) (l : List α)
    (h : ∀ x ∈ l, p x = true → q x = true) (hp : l.all p = true) : l.all q = true := by
  simp only [List.all_eq_true] at *
  exact fun x hx => h x hx (hp x hx)

theorem cipherInterface.New_ne (x : cipherInterface) : x.New ≠ x := by
  intro h
  exact Nat.succ_ne_self x.instanceGen (congrArg cipherInterface.instanceGen h)

theorem enableCiphersLoop_not_mem (avail : List (String × cipherInterface)) (l : List String) :
    ∀ (en : List (String × cipherInterface)) (k : String), k ∉ l →
      alLookup (enableCiphersLoop avail en l).1 k = alLookup en k := by
  induction l with
  | nil => intro en k _; rfl
  | cons n rest ih =>
    intro en k hk
    have hkn : k ≠ n := fun hh => hk (hh ▸ List.mem_cons_self n rest)
    have hkrest : k ∉ rest := fun hh => hk (List.mem_cons_of_mem n hh)
    cases hv : alLookup avail n with
    | some val =>
      simp only [enableCiphersLoop, hv]
      rw [ih (alInsert en n val) k hkrest, alLookup_insert_ne en n k val hkn]
    | none => simp only [enableCiphersLoop, hv]

theorem enableCiphersLoop_ok (avail : List (String × cipherInterface)) (l : List String) :
    ∀ en, (enableCiphersLoop avail en l).2.2 = none →
      ∀ n ∈ l, alLookup (enableCiphersLoop avail en l).1 n = alLookup avail n := by
  induction l with
  | nil => intro en _ n hn; cases hn
  | cons n₀ rest ih =>
    intro en hok n hn
    cases hv : alLookup avail n₀ with
    | none =>
      simp only [enableCiphersLoop, hv] at hok
      cases hok
    | some v =>
      simp only [enableCiphersLoop, hv] at hok ⊢
      rcases List.mem_cons.mp hn with heq | hmem
      · subst heq
        by_cases hr : n ∈ rest
        · exact ih (alInsert en n v) hok n hr
        · rw [enableCiphersLoop_not_mem avail rest (alInsert en n v) n hr,
            alLookup_insert_self, hv]
      · exact ih (alInsert en n₀ v) hok n hmem

theorem enableCiphersLoop_miss (avail : List (String × cipherInterface)) (l : List String) :
    ∀ en n, n ∈ l → alLookup avail n = none →
      (enableCiphersLoop avail en l).2.2.isSome = true ∧
      (enableCiphersLoop avail en l).2.1 = printAvailableCiphers avail := by
  induction l with
  | nil => intro en n hn _; cases hn
  | cons n₀ rest ih =>
    intro en n hn hmiss
    cases hv : alLookup avail n₀ with
    | none => simp [enableCiphersLoop, hv]
    | some v =>
      simp only [enableCiphersLoop, hv]
      rcases List.mem_cons.mp hn with heq | hmem
      · subst heq
        rw [hv] at hmiss
        cases hmiss
      · exact ih (alInsert en n₀ v) n hmem hmiss

theorem enableCiphersLoop_all (avail : List (String × cipherInterface)) (l : List String) :
    ∀ en, en.all (fun kv => (alLookup avail kv.1).isSome) = true →
      (enableCiphersLoop avail en l).1.all (fun kv => (alLookup avail kv.1).isSome) = true := by
  induction l with
  | nil => intro en h; exact h
  | cons n rest ih =>
    intro en h
    cases hv : alLookup avail n with
    | none =>
      simp only [enableCiphersLoop, hv]
      exact h
    | some v =>
      simp only [enableCiphersLoop, hv]
      exact ih (alInsert en n v) (all_alInsert _ en n v h (by simp [hv]))

theorem enableHSMLoop_sub (H : HSMInterface) (l : List String) :
    ∀ c c', enabledSubAvailable c = true → enableHSMLoop H c l = .ok c' →
      enabledSubAvailable c' = true := by
  induction l with
  | nil =>
    intro c c' h hok
    cases hok
    exact h
  | cons opt rest ih =>
    intro c c' h hok
    by_cases h1 : opt = "luks"
    · simp only [enableHSMLoop, h1, if_true] at hok
      refine ih _ c' ?_ hok
      exact h
    · by_cases h2 : opt = "tls"
      · simp only [enableHSMLoop, h1, h2, if_false, if_true] at hok
        refine ih _ c' ?_ hok
        exact h
      · by_cases h3 : opt = "cipher"
        · simp only [enableHSMLoop, h1, h2, h3, if_false, if_true] at hok
          refine ih _ c' ?_ hok
          show (alInsert c.enabledCiphers H.Cipher.GetInfo.Name H.Cipher).all
              (fun kv =>
                (alLookup (alInsert c.availableCiphers H.Cipher.GetInfo.Name H.Cipher)
                  kv.1).isSome) = true
          refine all_alInsert _ _ _ _ ?_ ?_
          · exact all_imp_all _ _ _ (fun kv _ hkv => alLookup_insert_isSome _ _ _ _ hkv) h
          · simp [alLookup_insert_self]
        · simp only [enableHSMLoop, h1, h2, h3, if_false] at hok
          cases hok

theorem EnableHSM_sub (c c' : config) (h : enabledSubAvailable c = true)
    (hok : c.EnableHSM = .ok c') : enabledSubAvailable c' = true := by
  unfold config.EnableHSM at hok
  split at hok
  · cases hok
    exact h
  · split at hok
    · split at hok
      · exact enableHSMLoop_sub _ _ _ _ h hok
      · cases hok
    · cases hok

theorem runOp_sub (c : config) (op : InitOp) (c' : config)
    (h : enabledSubAvailable c = true) (hop : runOp c op = some c') :
    enabledSubAvailable c' = true := by
  cases op with
  | setAvailableCipher ci =>
    cases hop
    show (c.enabledCiphers.all fun kv =>
        (alLookup (alInsert c.availableCiphers ci.GetInfo.Name ci) kv.1).isSome) = true
    exact all_imp_all _ _ _ (fun kv _ hkv => alLookup_insert_isSome _ _ _ _ hkv) h
  | enableCiphers =>
    cases hop
    unfold enabledSubAvailable config.EnableCiphers
    split
    · exact h
    · show ((enableCiphersLoop c.availableCiphers c.enabledCiphers c.Ciphers).1.all fun kv =>
          (alLookup c.availableCiphers kv.1).isSome) = true
      exact enableCiphersLoop_all _ _ _ h
  | enableHSM =>
    unfold runOp at hop
    cases hhsm : c.EnableHSM with
    | ok cnext =>
      rw [hhsm] at hop
      injection hop with heq
      exact EnableHSM_sub c c' h (heq ▸ hhsm)
    | fatal m =>
      rw [hhsm] at hop
      cases hop

theorem stripSeq_length (tok : List Char) :
    ∀ s rem, stripSeq tok s = some rem → s.length = tok.length + rem.length := by
  induction tok with
  | nil =>
    intro s rem h
    cases h
    simp
  | cons t ts ih =>
    intro s rem h
    cases s with
    | nil => cases h
    | cons c cs =>
      unfold stripSeq at h
      by_cases hc : t = c
      · rw [if_pos hc] at h
        have := ih cs rem h
        simp [this]
        omega
      · rw [if_neg hc] at h
        cases h

theorem replaceAllF_fuel (tok repl : List Char) :
    ∀ f₁ f₂ s, s.length ≤ f₁ → s.length ≤ f₂ →
      replaceAllF tok repl f₁ s = replaceAllF tok repl f₂ s := by
  intro f₁
  induction f₁ with
  | zero =>
    intro f₂ s hs _
    have : s = [] := List.eq_nil_of_length_eq_zero (Nat.le_zero.mp hs)
    subst this
    cases f₂ <;> rfl
  | succ f ih =>
    intro f₂ s hs hs2
    cases s with
    | nil => cases f₂ <;> rfl
    | cons ch rest =>
      cases f₂ with
      | zero => simp at hs2
      | succ f₂' =>
        have hr1 : rest.length ≤ f := Nat.le_of_succ_le_succ hs
        have hr2 : rest.length ≤ f₂' := Nat.le_of_succ_le_succ hs2
        cases tok with
        | nil =>
          simp only [replaceAllF]
          rw [ih f₂' rest hr1 hr2]
        | cons t ts =>
          cases hst : stripSeq (t :: ts) (ch :: rest) with
          | some rem =>
            have hrem : rem.length ≤ rest.length := by
              have := stripSeq_length (t :: ts) (ch :: rest) rem hst
              simp at this
              omega
            simp only [replaceAllF, hst]
            rw [ih f₂' rem (le_trans hrem hr1) (le_trans hrem hr2)]
          | none =>
            simp only [replaceAllF, hst]
            rw [ih f₂' rest hr1 hr2]

theorem replaceAll_head_match (tok repl b rem : List Char)
    (htok : tok ≠ []) (hs : stripSeq tok b = some rem) :
    replaceAll tok repl b = repl ++ replaceAll tok repl rem := by
  cases b with
  | nil =>
    cases tok with
    | nil => exact absurd rfl htok
    | cons t ts => cases hs
  | cons ch rest =>
    cases tok with
    | nil => exact absurd rfl htok
    | cons t ts =>
      have hrem : rem.length ≤ rest.length := by
        have := stripSeq_length (t :: ts) (ch :: rest) rem hs
        simp at this
        omega
      simp only [replaceAll, List.length_cons, replaceAllF, hs]
      rw [replaceAllF_fuel (t :: ts) repl rest.length rem.length rem hrem (le_refl _)]

theorem replaceAll_head_nomatch (tok repl : List Char) (ch : Char) (b : List Char)
    (hs : stripSeq tok (ch :: b) = none) :
    replaceAll tok repl (ch :: b) = ch :: replaceAll tok repl b := by
  cases tok with
  | nil => cases hs
  | cons t ts => simp only [replaceAll, List.length_cons, replaceAllF, hs]

theorem applyHeaders_lookups (gen : String × Option String) (headers : List (String × String)) :
    alLookup (applyHeaders gen headers).1 "Content-Security-Policy" = some (cspValue gen.1) ∧
    alLookup (applyHeaders gen headers).1 "Cache-Control"
      = some "no-cache, no-store, max-age=0, must-revalidate" ∧
    alLookup (applyHeaders gen headers).1 "Pragma" = some "no-cache" ∧
    alLookup (applyHeaders gen headers).1 "Expires" = some "Fri, 07 Jan 1981 00:00:00 GMT" := by
  simp only [applyHeaders]
  refine ⟨?_, ?_, ?_, ?_⟩
  · rw [alLookup_insert_ne _ _ _ _ (by decide), alLookup_insert_ne _ _ _ _ (by decide),
      alLookup_insert_ne _ _ _ _ (by decide), alLookup_insert_self]
  · rw [alLookup_insert_ne _ _ _ _ (by decide), alLookup_insert_ne _ _ _ _ (by decide),
      alLookup_insert_self]
  · rw [alLookup_insert_ne _ _ _ _ (by decide), alLookup_insert_self]
  · rw [alLookup_insert_self]

theorem runOps_sub (ops : List InitOp) :
    ∀ c c', enabledSubAvailable c = true → runOps c ops = some c' →
      enabledSubAvailable c' = true := by
  induction ops with
  | nil =>
    intro c c' h hrun
    cases hrun
    exact h
  | cons op rest ih =>
    intro c c' h hrun
    unfold runOps at hrun
    cases hop : runOp c op with
    | some c₁ =>
      rw [hop] at hrun
      exact ih c₁ c' (runOp_sub c op c₁ h hop) hrun
    | none =>
      rw [hop] at hrun
      cases hrun

theorem enableHSMLoop_bad (H : HSMInterface) (l : List String) :
    (∃ opt ∈ l, opt ≠ "luks" ∧ opt ≠ "tls" ∧ opt ≠ "cipher") →
      ∀ c, enableHSMLoop H c l = .fatal "invalid hsm option" := by
  induction l with
  | nil =>
    rintro ⟨opt, hmem, _⟩
    cases hmem
  | cons o rest ih =>
    rintro ⟨opt, hmem, hno⟩ c
    by_cases h1 : o = "luks"
    · subst h1
      have hmem' : opt ∈ rest := by
        rcases List.mem_cons.mp hmem with he | hm
        · exact absurd he hno.1
        · exact hm
      simp only [enableHSMLoop, if_pos rfl]
      exact ih ⟨opt, hmem', hno⟩ _
    · by_cases h2 : o = "tls"
      · subst h2
        have hmem' : opt ∈ rest := by
          rcases List.mem_cons.mp hmem with he | hm
          · exact absurd he hno.2.1
          · exact hm
        simp only [enableHSMLoop, h1, if_false, if_pos rfl]
        exact ih ⟨opt, hmem', hno⟩ _
      · by_cases h3 : o = "cipher"
        · subst h3
          have hmem' : opt ∈ rest := by
            rcases List.mem_cons.mp hmem with he | hm
            · exact absurd he hno.2.2
            · exact hm
          simp only [enableHSMLoop, h1, h2, if_false, if_pos rfl]
          exact ih ⟨opt, hmem', hno⟩ _
        · simp only [enableHSMLoop, h1, h2, h3, if_false]

theorem EnableCiphers_eq (c : config) (h : c.Ciphers.length ≠ 0) :
    c.EnableCiphers =
      ({ c with enabledCiphers :=
          (enableCiphersLoop c.availableCiphers c.enabledCiphers c.Ciphers).1 },
        (enableCiphersLoop c.availableCiphers c.enabledCiphers c.Ciphers).2.1,
        (enableCiphersLoop c.availableCiphers c.enabledCiphers c.Ciphers).2.2) := by
  unfold config.EnableCiphers
  rw [if_neg h]

/-- Concrete sample objects used by witnesses and counterexamples. -/
def samplePGP : cipherInterface := ⟨⟨"OpenPGP", ".pgp"⟩, 0⟩

def sampleAES : cipherInterface := ⟨⟨"AES-256-OFB", ".aes256ofb"⟩, 0⟩

def sampleHSM : HSMInterface := ⟨⟨⟨"HSMCipher", ".hsm"⟩, 0⟩, 0⟩

/-- A configuration with nothing registered, HSM off. -/
def emptyConf : config := ⟨"off", [], [], [], [], none, none⟩

/-- A configuration whose enabled map holds the OpenPGP sample (available
map left empty; only the enabled map matters to the lookups under test). -/
def byExtConf : config := ⟨"off", [], [], [("OpenPGP", samplePGP)], [], none, none⟩

/-- A configuration where OpenPGP is available but not enabled. -/
def availOnlyConf : config := ⟨"off", [], [("OpenPGP", samplePGP)], [], [], none, none⟩

/-- A configuration carrying an HSM directive with a registered model. -/
def hsmConf : config :=
  ⟨"someHSM:luks,cipher", [], [], [], [("someHSM", sampleHSM)], none, none⟩

/-- A configuration whose enable-list is fully available. -/
def enableConf : config :=
  ⟨"off", ["OpenPGP", "AES-256-OFB"],
    [("OpenPGP", samplePGP), ("AES-256-OFB", sampleAES)], [], [], none, none⟩

/-- Same as enableConf but with one configured name that is not available. -/
def missConf : config := { enableConf with Ciphers := ["OpenPGP", "TOTP"] }

/-- A configuration for a full initialization run: one software cipher to
enable and an HSM directive supplying another. -/
def initConf : config :=
  ⟨"someHSM:luks,cipher", ["OpenPGP"], [], [], [("someHSM", sampleHSM)], none, none⟩

/-- Claim C1: for every configured cipher-name list, EnableCiphers fails —
after emitting the diagnostic that lists every available cipher name —
whenever some configured name is absent from the available map; on success
every configured name is present in the enabled map, bound to the provider
stored under that name in the available map. -/
theorem C1_enable_ciphers_fails_closed (c : config) :
    ((∃ n ∈ c.Ciphers, alLookup c.availableCiphers n = none) →
      c.EnableCiphers.2.2.isSome = true ∧
      c.EnableCiphers.2.1 = printAvailableCiphers c.availableCiphers ∧
      ∀ kv ∈ c.availableCiphers, ("\t" ++ kv.1) ∈ c.EnableCiphers.2.1) ∧
    (c.EnableCiphers.2.2 = none →
      ∀ n ∈ c.Ciphers,
        (alLookup c.EnableCiphers.1.enabledCiphers n).isSome = true ∧
        alLookup c.EnableCiphers.1.enabledCiphers n = alLookup c.availableCiphers n) := by
  constructor
  · rintro ⟨n, hn, hmiss⟩
    have hne : c.Ciphers.length ≠ 0 := by
      intro h0
      rw [List.length_eq_zero] at h0
      rw [h0] at hn
      cases hn
    rw [EnableCiphers_eq c hne]
    obtain ⟨hsome, hlog⟩ :=
      enableCiphersLoop_miss c.availableCiphers c.Ciphers c.enabledCiphers n hn hmiss
    refine ⟨hsome, hlog, ?_⟩
    intro kv hkv
    rw [hlog]
    exact List.mem_cons_of_mem _ (List.mem_map_of_mem _ hkv)
  · intro hok n hn
    by_cases h0 : c.Ciphers.length = 0
    · unfold config.EnableCiphers at hok
      rw [if_pos h0] at hok
      cases hok
    · rw [EnableCiphers_eq c h0] at hok ⊢
      have hbind := enableCiphersLoop_ok c.availableCiphers c.Ciphers c.enabledCiphers hok n hn
      refine ⟨?_, hbind⟩
      rw [hbind]
      cases hv : alLookup c.availableCiphers n with
      | some v => rfl
      | none =>
        obtain ⟨hsome, _⟩ :=
          enableCiphersLoop_miss c.availableCiphers c.Ciphers c.enabledCiphers n hn hv
        rw [hok] at hsome
        cases hsome

/-- Claim C1 witness: the configured list with the unavailable name TOTP
fails with the full diagnostic, and the fully available list binds OpenPGP
in the enabled map to the provider stored in the available map. -/
theorem C1_witness :
    missConf.EnableCiphers.2.2.isSome = true ∧
    missConf.EnableCiphers.2.1 = printAvailableCiphers missConf.availableCiphers ∧
    alLookup enableConf.EnableCiphers.1.enabledCiphers "OpenPGP"
      = alLookup enableConf.availableCiphers "OpenPGP" := by
  have h1 := (C1_enable_ciphers_fails_closed missConf).1 ⟨"TOTP", by decide, by decide⟩
  have h2 := (C1_enable_ciphers_fails_closed enableConf).2 (by decide) "OpenPGP" (by decide)
  exact ⟨h1.1, h1.2.1, h2.2⟩

/-- Claim C2 counterexample: on a registry whose enabled map stores the
OpenPGP sample provider, the extension lookup returns that stored instance
itself, which is not the result of any New() call — refuting the claim
that every successful lookup returns a newly constructed instance and
never the shared stored one. -/
theorem C2_counterexample :
    byExtConf.GetCipherByExt ".pgp" = .ok samplePGP ∧
    alLookup byExtConf.enabledCiphers "OpenPGP" = some samplePGP ∧
    (∀ x : cipherInterface, samplePGP ≠ x.New) := by
  refine ⟨by decide, by decide, ?_⟩
  intro x hx
  have h := congrArg cipherInterface.instanceGen hx
  simp [samplePGP, cipherInterface.New] at h

/-- Claim C2 (amended): GetCipher returns the result of New() on the stored
enabled provider — never the stored value itself — and errors on an
unmatched name; GetCipherByExt returns the stored matching provider
itself, with no New() call, and errors on an unmatched extension. -/
theorem C2_lookup_freshness (c : config) :
    (∀ name v, c.GetCipher name = .ok v →
      ∃ stored, alLookup c.enabledCiphers name = some stored ∧
        v = stored.New ∧ v ≠ stored) ∧
    (∀ name, alLookup c.enabledCiphers name = none →
      c.GetCipher name = .err "invalid cipher") ∧
    (∀ ext v, c.GetCipherByExt ext = .ok v →
      ∃ p ∈ c.enabledCiphers, v = p.2 ∧ p.2.GetInfo.Extension = ext) ∧
    (∀ ext, (∀ p ∈ c.enabledCiphers, p.2.GetInfo.Extension ≠ ext) →
      c.GetCipherByExt ext = .err "invalid cipher") := by
  refine ⟨?_, ?_, ?_, ?_⟩
  · intro name v hv
    unfold config.GetCipher at hv
    cases hl : alLookup c.enabledCiphers name with
    | none =>
      rw [hl] at hv
      cases hv
    | some stored =>
      rw [hl] at hv
      injection hv with he
      exact ⟨stored, rfl, he.symm, he ▸ stored.New_ne⟩
  · intro name hl
    unfold config.GetCipher
    rw [hl]
  · intro ext v hv
    unfold config.GetCipherByExt at hv
    cases hf : c.enabledCiphers.find? (fun kv => kv.2.GetInfo.Extension == ext) with
    | none =>
      rw [hf] at hv
      cases hv
    | some kv =>
      rw [hf] at hv
      injection hv with he
      refine ⟨kv, List.mem_of_find?_eq_some hf, he.symm, ?_⟩
      have hp := List.find?_some hf
      simpa using hp
  · intro ext hall
    unfold config.GetCipherByExt
    rw [List.find?_eq_none.mpr (fun p hp => by simpa using hall p hp)]

/-- Claim C2 witness: the amended lookup facts at the sample registry. -/
theorem C2_witness :
    (∃ stored, alLookup byExtConf.enabledCiphers "OpenPGP" = some stored ∧
      samplePGP.New = stored.New ∧ samplePGP.New ≠ stored) ∧
    (∃ p ∈ byExtConf.enabledCiphers, samplePGP = p.2 ∧
      p.2.GetInfo.Extension = ".pgp") := by
  exact ⟨(C2_lookup_freshness byExtConf).1 "OpenPGP" samplePGP.New (by decide),
    (C2_lookup_freshness byExtConf).2.2.1 ".pgp" samplePGP (by decide)⟩

/-- Claim C3: for an authenticated request whose URI is outside the fixed
command table, a URI matching the /api/provider/action pattern is resolved
against the available map — the request is forwarded to the matched
provider's custom handler (as a fresh instance) no matter what the enabled
map holds — and a miss, or no pattern match at all, yields the structured
not-found envelope. -/
theorem C3_dispatch_uses_available (c : config) (uri : String)
    (hfix : uri ∉ fixedAPIPaths) :
    (∀ name action, findURIPattern uri.data = some (name, action) →
      (∀ v, alLookup c.availableCiphers name = some v →
        handleRequest c uri = .custom v.New) ∧
      (alLookup c.availableCiphers name = none →
        handleRequest c uri = .envelope notFound)) ∧
    (findURIPattern uri.data = none → handleRequest c uri = .envelope notFound) ∧
    (∀ en, handleRequest { c with enabledCiphers := en } uri = handleRequest c uri) := by
  refine ⟨?_, ?_, fun en => rfl⟩
  · intro name action hm
    constructor
    · intro v hv
      unfold handleRequest
      rw [if_neg hfix, hm]
      show (match c.GetAvailableCipher name with
        | cipherResult.ok cipher => Routed.custom cipher
        | cipherResult.err _ => Routed.envelope notFound) = Routed.custom v.New
      unfold config.GetAvailableCipher
      rw [hv]
    · intro hv
      unfold handleRequest
      rw [if_neg hfix, hm]
      show (match c.GetAvailableCipher name with
        | cipherResult.ok cipher => Routed.custom cipher
        | cipherResult.err _ => Routed.envelope notFound) = Routed.envelope notFound
      unfold config.GetAvailableCipher
      rw [hv]
  · intro hm
    unfold handleRequest
    rw [if_neg hfix, hm]

/-- Claim C3 witness: with OpenPGP available but not in the enabled map,
the dynamic route still reaches OpenPGP's custom handler, while an unknown
provider name gets the not-found envelope. -/
theorem C3_witness :
    handleRequest availOnlyConf "/api/OpenPGP/whatever" = .custom samplePGP.New ∧
    handleRequest availOnlyConf "/api/Nonexistent/whatever" = .envelope notFound := by
  have h1 := (C3_dispatch_uses_available availOnlyConf "/api/OpenPGP/whatever"
    (by decide)).1 "OpenPGP" "whatever" (by decide)
  have h2 := (C3_dispatch_uses_available availOnlyConf "/api/Nonexistent/whatever"
    (by decide)).1 "Nonexistent" "whatever" (by decide)
  exact ⟨h1.1 samplePGP (by decide), h2.2 (by decide)⟩

/-- Claim C4: contrary to the claim, a request-time error is not always
surfaced as a structured envelope — a download request with a valid
session, an invalid XSRF token and no id query parameter reaches the
unchecked p["id"][0] index (api.go line 125) on an empty value list and
panics instead of answering. -/
theorem C4_download_missing_id_panics :
    apiHandler emptyConf "/api/file/download" true false = .panic ∧
    queryValues (parseQuery (uriRawQuery "/api/file/download")) "id" = [] := by decide

/-- Claim C5: for a protected request that is not fully valid, the
rejection shape is decided by the path — the upload path gets a raw HTTP
401, the download path with a valid session and an id parameter is served
through fileDownloadByID with that identifier, and every other path gets
the INVALID_SESSION envelope, never a raw status code. -/
theorem C5_rejection_shape_by_path (c : config) (uri : String) (vs vx : Bool)
    (hnotfull : (vs && vx) = false)
    (hlogin : uri ≠ "/api/auth/login") (hrefresh : uri ≠ "/api/auth/refresh") :
    (uriPath uri = "/api/file/upload" → apiHandler c uri vs vx = .httpError 401) ∧
    (uriPath uri = "/api/file/download" → vs = true →
      ∀ id rest, queryValues (parseQuery (uriRawQuery uri)) "id" = id :: rest →
        apiHandler c uri vs vx = .downloadByID id) ∧
    (uriPath uri ≠ "/api/file/upload" → uriPath uri ≠ "/api/file/download" →
      apiHandler c uri vs vx = .envelope invalidSessionEnvelope) := by
  unfold apiHandler
  rw [if_neg hlogin, if_neg hrefresh]
  rw [if_pos (show (!(vs && vx)) = true by rw [hnotfull]; rfl)]
  refine ⟨?_, ?_, ?_⟩
  · intro hup
    rw [if_pos hup]
  · intro hdown hvs id rest hq
    rw [if_neg (by rw [hdown]; decide), if_pos hdown, if_pos hvs, hq]
  · intro hup hdown
    rw [if_neg hup, if_neg hdown]

/-- Claim C5 witness: the three rejection shapes at concrete requests. -/
theorem C5_witness :
    apiHandler emptyConf "/api/file/upload" false false = .httpError 401 ∧
    apiHandler emptyConf "/api/file/download?id=abc" true false = .downloadByID "abc" ∧
    apiHandler emptyConf "/api/file/delete" true false
      = .envelope invalidSessionEnvelope := by
  refine ⟨?_, ?_, ?_⟩
  · exact (C5_rejection_shape_by_path emptyConf "/api/file/upload" false false
      (by decide) (by decide) (by decide)).1 (by decide)
  · exact (C5_rejection_shape_by_path emptyConf "/api/file/download?id=abc" true false
      (by decide) (by decide) (by decide)).2.1 (by decide) rfl "abc" [] (by decide)
  · exact (C5_rejection_shape_by_path emptyConf "/api/file/delete" true false
      (by decide) (by decide) (by decide)).2.2 (by decide) (by decide)

/-- Claim C6: EnableHSM is a no-op on the directive "off"; on x:luks,cipher
with a registered model x it binds one fresh instance of x as the auth HSM
and registers that instance's supplied cipher in both the available and
the enabled maps; a directive without the separator, an unregistered
model, or an option other than luks/tls/cipher aborts fatally. -/
theorem C6_enable_hsm (c : config) (x : List Char) (val : HSMInterface) :
    (c.HSM = "off" → c.EnableHSM = .ok c) ∧
    (splitOnChar ':' c.HSM.data = [x, "luks,cipher".data] →
      alLookup c.availableHSMs x.asString = some val →
      ∃ c', c.EnableHSM = .ok c' ∧ c'.authHSM = some val.New ∧
        alLookup c'.availableCiphers val.New.Cipher.GetInfo.Name = some val.New.Cipher ∧
        alLookup c'.enabledCiphers val.New.Cipher.GetInfo.Name = some val.New.Cipher) ∧
    (c.HSM ≠ "off" → ∀ m, splitOnChar ':' c.HSM.data = [m] →
      c.EnableHSM = .fatal "invalid hsm configuration directive") ∧
    (c.HSM ≠ "off" → ∀ m o r, splitOnChar ':' c.HSM.data = m :: o :: r →
      alLookup c.availableHSMs m.asString = none →
      c.EnableHSM = .fatal "invalid hsm model") ∧
    (c.HSM ≠ "off" → ∀ m o r H', splitOnChar ':' c.HSM.data = m :: o :: r →
      alLookup c.availableHSMs m.asString = some H' →
      (∃ opt ∈ (splitOnChar ',' o).map List.asString,
        opt ≠ "luks" ∧ opt ≠ "tls" ∧ opt ≠ "cipher") →
      c.EnableHSM = .fatal "invalid hsm option") := by
  refine ⟨?_, ?_, ?_, ?_, ?_⟩
  · intro hoff
    unfold config.EnableHSM
    rw [if_pos hoff]
  · intro hsplit hlk
    have hoff : c.HSM ≠ "off" := by
      intro he
      rw [he] at hsplit
      have hd : splitOnChar ':' "off".data = ["off".data] := by decide
      rw [hd] at hsplit
      simp at hsplit
    unfold config.EnableHSM
    rw [if_neg hoff]
    simp only [hsplit, hlk]
    rw [show (splitOnChar ',' "luks,cipher".data).map List.asString
      = ["luks", "cipher"] from by decide]
    refine ⟨_, rfl, rfl, ?_, ?_⟩
    · exact alLookup_insert_self _ _ _
    · exact alLookup_insert_self _ _ _
  · intro hoff m hsplit
    unfold config.EnableHSM
    rw [if_neg hoff]
    simp only [hsplit]
  · intro hoff m o r hsplit hlk
    unfold config.EnableHSM
    rw [if_neg hoff]
    simp only [hsplit, hlk]
  · intro hoff m o r H' hsplit hlk hbad
    unfold config.EnableHSM
    rw [if_neg hoff]
    simp only [hsplit, hlk]
    exact enableHSMLoop_bad H'.New _ hbad c

/-- Claim C6 witness: the successful case at a concrete registry. -/
theorem C6_witness :
    ∃ c', hsmConf.EnableHSM = .ok c' ∧ c'.authHSM = some sampleHSM.New ∧
      alLookup c'.availableCiphers "HSMCipher" = some sampleHSM.New.Cipher ∧
      alLookup c'.enabledCiphers "HSMCipher" = some sampleHSM.New.Cipher := by
  exact (C6_enable_hsm hsmConf "someHSM".data sampleHSM).2.1 (by decide) (by decide)

/-- Claim C7: applyHeaders sets the Content-Security-Policy header with the
response nonce embedded in the script-source directive, the three
anti-caching headers, and wraps the writer so that every write replaces
every occurrence of the placeholder token with that identical nonce: a
leading occurrence is rewritten to the nonce, a non-occurrence position is
copied unchanged, and the empty write is unchanged. -/
theorem C7_nonce_header_and_substitution (gen : String × Option String)
    (headers : List (String × String)) :
    alLookup (applyHeaders gen headers).1 "Content-Security-Policy"
      = some (cspHead ++ (applyHeaders gen headers).2.nonce ++ cspTail) ∧
    alLookup (applyHeaders gen headers).1 "Cache-Control"
      = some "no-cache, no-store, max-age=0, must-revalidate" ∧
    alLookup (applyHeaders gen headers).1 "Pragma" = some "no-cache" ∧
    alLookup (applyHeaders gen headers).1 "Expires"
      = some "Fri, 07 Jan 1981 00:00:00 GMT" ∧
    (∀ b, (applyHeaders gen headers).2.Write b
      = replaceAll nonceToken.data (applyHeaders gen headers).2.nonce.data b) ∧
    (∀ b rem, stripSeq nonceToken.data b = some rem →
      (applyHeaders gen headers).2.Write b
        = (applyHeaders gen headers).2.nonce.data ++ (applyHeaders gen headers).2.Write rem) ∧
    (∀ ch b, stripSeq nonceToken.data (ch :: b) = none →
      (applyHeaders gen headers).2.Write (ch :: b)
        = ch :: (applyHeaders gen headers).2.Write b) ∧
    (applyHeaders gen headers).2.Write [] = [] := by
  obtain ⟨h1, h2, h3, h4⟩ := applyHeaders_lookups gen headers
  refine ⟨h1, h2, h3, h4, fun b => rfl, ?_, ?_, rfl⟩
  · intro b rem hs
    exact replaceAll_head_match nonceToken.data _ b rem (by decide) hs
  · intro ch b hs
    exact replaceAll_head_nomatch nonceToken.data _ ch b hs

/-- Claim C7 witness: the header embeds the concrete nonce and a body write
substitutes the same nonce for a placeholder occurrence. -/
theorem C7_witness :
    alLookup (applyHeaders ("XYZ", none) []).1 "Content-Security-Policy"
      = some (cspHead ++ "XYZ" ++ cspTail) ∧
    (applyHeaders ("XYZ", none) []).2.Write (nonceToken.data ++ "b".data)
      = "XYZ".data ++ (applyHeaders ("XYZ", none) []).2.Write "b".data := by
  have h := C7_nonce_header_and_substitution ("XYZ", none) []
  exact ⟨h.1, h.2.2.2.2.2.1 (nonceToken.data ++ "b".data) "b".data (by decide)⟩

/-- Claim C8: a refresh request is answered before the gate, from the
session-validity bit alone — a valid session invokes the refresh handler
regardless of the XSRF bit, anything else gets the INVALID_SESSION
envelope. -/
theorem C8_refresh_session_only (c : config) (vs vx : Bool) :
    apiHandler c "/api/auth/refresh" vs vx
      = if vs then ApiOutcome.refresh else ApiOutcome.envelope invalidSessionEnvelope := rfl

/-- Claim C9: every initialization sequence of SetAvailableCipher,
EnableCiphers and EnableHSM that does not abort preserves the invariant
that every key of the enabled map is a key of the available map. -/
theorem C9_enabled_subset_available (c c' : config) (ops : List InitOp)
    (h : enabledSubAvailable c = true) (hrun : runOps c ops = some c') :
    enabledSubAvailable c' = true :=
  runOps_sub ops c c' h hrun

/-- Claim C9 witness: a concrete initialization run — register OpenPGP,
enable the configured list, then apply the HSM directive — ends in a state
satisfying the invariant. -/
theorem C9_witness :
    ∃ c', runOps initConf [InitOp.setAvailableCipher samplePGP, InitOp.enableCiphers,
      InitOp.enableHSM] = some c' ∧ enabledSubAvailable c' = true := by
  obtain ⟨c', hc'⟩ := Option.isSome_iff_exists.mp
    (show (runOps initConf [InitOp.setAvailableCipher samplePGP, InitOp.enableCiphers,
      InitOp.enableHSM]).isSome = true by decide)
  exact ⟨c', hc', C9_enabled_subset_available initConf c' _ (by decide) hc'⟩

/-- Claim C10: applyHeaders drops the nonce-generation error on the floor —
the outcome with a generation error is identical to the outcome without
one, the Content-Security-Policy header is still set from whatever nonce
string was returned, and body substitution still uses that nonce. -/
theorem C10_nonce_error_ignored (nonce e : String) (headers : List (String × String)) :
    applyHeaders (nonce, some e) headers = applyHeaders (nonce, none) headers ∧
    alLookup (applyHeaders (nonce, some e) headers).1 "Content-Security-Policy"
      = some (cspValue nonce) ∧
    (applyHeaders (nonce, some e) headers).2.nonce = nonce ∧
    (∀ b, (applyHeaders (nonce, some e) headers).2.Write b
      = replaceAll nonceToken.data nonce.data b) :=
  ⟨rfl, (applyHeaders_lookups (nonce, some e) headers).1, rfl, fun _ => rfl⟩

end Interlock
